import Mathlib

/-!
# Load orchestration of the page converter (`src/pageconverter.cc`)

A shallow embedding of `PageConverterPrivate`: the locator guesser
`guessUrlFromString`, the network callbacks `amfinished` and
`authenticationRequired`, the load callbacks `loadStarted` and `loadFinished`,
and the dispatcher `convert`.

Qt itself is not part of the repository.  What the code asks of Qt that cannot
be read off the source (the locator parsers, the file system, the temporary
directory, the UUID generator) is gathered in the structure `Qt` and every
definition takes it as a parameter.  `sampleQt` is one small concrete instance,
used to evaluate the model on concrete inputs.
-/

namespace PageConverter

/-! ## Strings -/

/-- Qt `QChar::isSpace`: the control characters 9 to 13 and the Unicode separator
categories (space, line and paragraph separators). -/
def isSpace (c : Char) : Bool :=
  let n := c.toNat
  (9 ≤ n && n ≤ 13) || n == 0x20 || n == 0xA0 || n == 0x1680 || n == 0x180E ||
    (0x2000 ≤ n && n ≤ 0x200A) || n == 0x2028 || n == 0x2029 || n == 0x202F ||
    n == 0x205F || n == 0x3000

/-- Qt `QString::trimmed`: the string without the white space at its start and at its end. -/
def trimmed (s : String) : String :=
  String.mk ((s.data.dropWhile isSpace).reverse.dropWhile isSpace).reverse

/-- The character class `[a-zA-Z]`. -/
def isLetter (c : Char) : Bool :=
  (97 ≤ c.toNat && c.toNat ≤ 122) || (65 ≤ c.toNat && c.toNat ≤ 90)

/-- The character class `[0-9]`. -/
def isDigit (c : Char) : Bool :=
  48 ≤ c.toNat && c.toNat ≤ 57

/-- The character class `[a-zA-Z\.]`. -/
def isLetterOrDot (c : Char) : Bool :=
  isLetter c || c == '.'

/-- Matcher `hostWithPort.exactMatch` for `QRegExp("^[a-zA-Z\\.]+\\:[0-9]*$")`: one or more
letters or dots, a colon, then digits only.  The colon is outside the first
class, so the first character that is not a letter or a dot has to be the colon. -/
def hostWithPort (s : String) : Bool :=
  match s.data.dropWhile isLetterOrDot with
  | ':' :: port => !(s.data.takeWhile isLetterOrDot).isEmpty && port.all isDigit
  | _ => false

/-- Matcher `test.exactMatch` for `QRegExp("^[a-zA-Z]+\\:.*")`: one or more letters, a
colon, then anything. -/
def test (s : String) : Bool :=
  match s.data.dropWhile isLetter with
  | ':' :: _ => !(s.data.takeWhile isLetter).isEmpty
  | _ => false

/-- The loop `foreach (const QChar &c, urlStr) if (c >= 0x80) ...`: no character
at or above `0x80`. -/
def isAscii (s : String) : Bool :=
  s.data.all (fun c => c.toNat < 0x80)

/-- Qt `QString::indexOf(QChar)`: the position of the first occurrence, `-1` when
there is none. -/
def indexOf (s : String) (c : Char) : Int :=
  if c ∈ s.data then (s.data.indexOf c : Nat) else -1

/-- Qt `QString::left(n)`: the first `n` characters, the whole string when `n` is
negative or beyond the end. -/
def left (s : String) (n : Int) : String :=
  if n < 0 then s else String.mk (s.data.take n.toNat)

/-- Qt `QString::toLower`.  Only the letters `A` to `Z` are mapped; the one use of
the result is the comparison with `ftp`, and no character outside `A` to `Z`
lower-cases to `f`, `t` or `p`. -/
def toLower (s : String) : String :=
  String.mk (s.data.map Char.toLower)

/-! ## Locators and the library interface -/

/-- The parts of a `QUrl` that the code and the specification look at. -/
structure QUrl where
  isValid : Bool
  scheme : String
  host : String
  port : Int
  path : String
deriving DecidableEq

/-- What `pageconverter.cc` uses from Qt and from the machine it runs on. -/
structure Qt where
  /-- Qt `QUrl::fromEncoded(bytes, QUrl::TolerantMode)` -/
  fromEncoded : String → QUrl
  /-- Qt `QUrl(string, QUrl::TolerantMode)` -/
  tolerant : String → QUrl
  /-- Qt `QUrl::fromLocalFile` -/
  fromLocalFile : String → QUrl
  /-- Qt `QFile::exists` -/
  fileExists : String → Bool
  /-- Qt `QFileInfo(path).absoluteFilePath()` -/
  absoluteFilePath : String → String
  /-- Qt `QDir::tempPath()` -/
  tempPath : String
  /-- Qt `QUuid::createUuid().toString()`, as the sequence of identifiers handed out:
  the argument is the number of identifiers created before. -/
  createUuid : Nat → String

/-- Source function `PageConverterPrivate::guessUrlFromString`, statement by statement. -/
def guessUrlFromString (qt : Qt) (string : String) : QUrl := Id.run do
  let mut urlStr := trimmed string
  -- check if the string is just a host with a port
  if hostWithPort urlStr then
    urlStr := "http://" ++ urlStr
  -- Check if it looks like a qualified URL. Try parsing it and see.
  let hasSchema := test urlStr
  if hasSchema then
    -- `toAscii` leaves a string without characters from 0x80 on as it is
    let url := if isAscii urlStr then qt.fromEncoded urlStr else qt.tolerant urlStr
    if url.isValid then
      return url
  -- Might be a file.
  if qt.fileExists urlStr then
    return qt.fromLocalFile (qt.absoluteFilePath urlStr)
  -- Might be a shorturl - try to detect the schema.
  if !hasSchema then
    let dotIndex := indexOf urlStr '.'
    if dotIndex != -1 then
      let pfx := toLower (left urlStr dotIndex)
      let schema := if pfx = "ftp" then pfx else "http"
      let url := qt.tolerant (schema ++ "://" ++ urlStr)
      if url.isValid then
        return url
  -- Fall back to QUrl's own tolerant parser.
  let mut url := qt.tolerant string
  -- finally for cases where the user just types in a hostname add http
  if url.scheme = "" then
    url := qt.tolerant ("http://" ++ string)
  return url

/-! ### The steps of `guessUrlFromString`, named

These four definitions only give names to expressions that occur in
`guessUrlFromString`; `guessUrlFromString_eq` below shows that the function is
the chain of its four exits written with them. -/

/-- The value of `urlStr` once the host-with-port check has run. -/
def urlStrOf (string : String) : String :=
  if hostWithPort (trimmed string) then "http://" ++ trimmed string else trimmed string

/-- The parse tried on a string with a scheme-like start. -/
def qualifiedUrl (qt : Qt) (urlStr : String) : QUrl :=
  if isAscii urlStr then qt.fromEncoded urlStr else qt.tolerant urlStr

/-- The scheme chosen for a short locator: `ftp` when the text before the first
dot, lower-cased, is `ftp`, and `http` otherwise. -/
def shortSchema (urlStr : String) : String :=
  if toLower (left urlStr (indexOf urlStr '.')) = "ftp" then
    toLower (left urlStr (indexOf urlStr '.'))
  else "http"

/-- The candidate built for a short locator. -/
def shortUrl (qt : Qt) (urlStr : String) : QUrl :=
  qt.tolerant (shortSchema urlStr ++ "://" ++ urlStr)

/-- The last resort: the tolerant parse of the untouched input, with `http://`
put in front when that parse has no scheme. -/
def fallbackUrl (qt : Qt) (string : String) : QUrl :=
  if (qt.tolerant string).scheme = "" then qt.tolerant ("http://" ++ string)
  else qt.tolerant string

/-! ## A concrete library instance -/

/-- Decimal value of a run of digits. -/
def digitsValue (ds : List Char) : Int :=
  ds.foldl (fun acc c => 10 * acc + ((c.toNat : Int) - 48)) 0

/-- A reader for locators of the plain shape `scheme://host:port/path`.  A text
without a colon is a relative locator (no scheme); a text with a scheme that is
not followed by `//` keeps the remainder as its path. -/
def sampleParse (s : String) : QUrl :=
  if ':' ∈ s.data then
    let scheme := s.data.takeWhile (fun c => c != ':')
    let rest := (s.data.dropWhile (fun c => c != ':')).drop 1
    match rest with
    | '/' :: '/' :: more =>
      let authority := more.takeWhile (fun c => c != '/')
      let path := more.dropWhile (fun c => c != '/')
      let host := authority.takeWhile (fun c => c != ':')
      let port := (authority.dropWhile (fun c => c != ':')).drop 1
      { isValid := !scheme.isEmpty && scheme.all isLetter && port.all isDigit
        scheme := toLower (String.mk scheme)
        host := String.mk host
        port := if port.isEmpty then -1 else digitsValue port
        path := String.mk path }
    | _ =>
      { isValid := !scheme.isEmpty && scheme.all isLetter
        scheme := toLower (String.mk scheme)
        host := ""
        port := -1
        path := String.mk rest }
  else
    { isValid := true, scheme := "", host := "", port := -1, path := s }

/-- A machine whose file system holds exactly `files` (absolute paths are the
ones that start with a slash, the working directory is `/work`), whose temporary
directory is `/tmp`, and whose `n`-th identifier is a run of `n` letters `u`. -/
def sampleQt (files : List String) : Qt where
  fromEncoded := sampleParse
  tolerant := sampleParse
  fromLocalFile := fun p =>
    { isValid := true, scheme := "file", host := "", port := -1, path := p }
  fileExists := fun p => decide (p ∈ files)
  absoluteFilePath := fun p =>
    match p.data with
    | '/' :: _ => p
    | _ => "/work/" ++ p
  tempPath := "/tmp"
  createUuid := fun n => String.mk (List.replicate n 'u')

/-! ## The converter's state -/

/-- A call made on the `Feedback` sink. -/
inductive FeedbackCall where
  | error (msg : String)
  | nextState (name : String)
  | progress (cur max : Int) (unit : String) (displayOf : Bool)
deriving DecidableEq

/-- The fields of `Settings` that `pageconverter.cc` reads in the functions
embedded here.  The field `in` is spelled `in_`. -/
structure Settings where
  username : String
  password : String
  cover : String
  in_ : List String
  jsredirectwait : Int
deriving DecidableEq

/-- A `QNetworkReply`: its HTTP status code attribute and whether it was aborted. -/
structure QNetworkReply where
  httpStatusCode : Int
  aborted : Bool
deriving DecidableEq

/-- A `QAuthenticator`. -/
structure QAuthenticator where
  realm : String
  user : String
  password : String
deriving DecidableEq

/-- A `QWebPage` made by `convert`: the locator its main frame was told to load. -/
structure QWebPage where
  url : QUrl
deriving DecidableEq

/-- A call `QTimer::singleShot(msec, this, SLOT(slot()))`: after `msec`
milliseconds the event loop invokes the slot, once. -/
structure SingleShot where
  msec : Int
  slot : String
deriving DecidableEq

/-- The value a 32-bit signed `int` holds after a step whose exact result is
`x`: two's complement wrap-around, which is what `QAtomicInt::ref` and
`QAtomicInt::deref` compute. -/
def wrap32 (x : Int) : Int :=
  (x + 2147483648) % 4294967296 - 2147483648

/-- The object `PageConverterPrivate` together with what it has done to the
outside: the calls on the feedback sink, the one-shot timers it has started, the
status passed to `exit`, the number of identifiers it has drawn, and the files
it has written.  `loading` is a `QAtomicInt`, a 32-bit signed counter. -/
structure PageConverterPrivate where
  settings : Settings
  loading : Int
  networkError : Int
  loginTry : Int
  pages : List QWebPage
  temporaryFiles : List String
  feedback : List FeedbackCall
  timers : List SingleShot
  exitCode : Option Int
  uuids : Nat
  written : List String
deriving DecidableEq

/-! ## Network callbacks -/

/-- Source function `PageConverterPrivate::amfinished`. -/
def amfinished (d : PageConverterPrivate) (reply : QNetworkReply) : PageConverterPrivate :=
  let error := reply.httpStatusCode
  if error > 399 && d.networkError == 0 then { d with networkError := error } else d

/-- Source function `PageConverterPrivate::authenticationRequired`: the new
state, the reply and the authenticator as the call leaves them. -/
def authenticationRequired (d : PageConverterPrivate) (reply : QNetworkReply)
    (authenticator : QAuthenticator) :
    PageConverterPrivate × QNetworkReply × QAuthenticator :=
  if d.settings.username = "" then
    -- If no username is given, complain the such is required
    ({ d with feedback := d.feedback ++ [.error "Authentication Required\n"] },
      { reply with aborted := true }, authenticator)
  else if d.loginTry ≥ 2 then
    -- If the login has failed a sufficient number of times,
    -- the username or password must be wrong
    ({ d with feedback := d.feedback ++ [.error "Invalid username or password"] },
      { reply with aborted := true }, authenticator)
  else
    ({ d with loginTry := d.loginTry + 1 }, reply,
      { authenticator with user := d.settings.username, password := d.settings.password })

/-! ## Load callbacks -/

/-- Source function `PageConverterPrivate::loadFinished`.  `exit(1)` ends the
process: the status is recorded and nothing after it runs. -/
def loadFinished (d : PageConverterPrivate) (ok : Bool) : PageConverterPrivate :=
  -- Keep track of the number of pages currently loading
  let d := { d with loading := wrap32 (d.loading - 1) }
  if !ok then
    -- It went bad, return with 1
    { d with feedback := d.feedback ++ [.error "Failed loading page"], exitCode := some 1 }
  else
    let d := { d with feedback := d.feedback ++ [.nextState "Waiting for redirect"] }
    if d.loading == 0 then
      -- Wait a little while for js-redirects, and then print
      { d with timers :=
          d.timers ++ [{ msec := d.settings.jsredirectwait, slot := "preparePrint" }] }
    else d

/-- Source function `PageConverterPrivate::loadStarted`. -/
def loadStarted (d : PageConverterPrivate) : PageConverterPrivate :=
  { d with loading := wrap32 (d.loading + 1) }

/-! ## The dispatcher -/

/-- The name given to the temporary file of a stdin source:
`QDir::tempPath()+"/wktemp"+QUuid::createUuid().toString()+".html"`. -/
def tempFileName (qt : Qt) (k : Nat) : String :=
  qt.tempPath ++ "/wktemp" ++ qt.createUuid k ++ ".html"

/-- The machine `qt` once the files `written` have been written on it: they
exist, next to the files that were there before. -/
def fileSystem (qt : Qt) (written : List String) : Qt :=
  { qt with fileExists := fun p => decide (p ∈ written) || qt.fileExists p }

/-- The body of the loop `foreach(QString url, settings.in)` of `convert`.  For a
stdin source a temporary file name is made and recorded, and the file is opened
for writing and filled from the standard input (`tmp.open`, `copyFile`): from
then on the file exists.  Then, for every source, a page is made, told to load
the locator guessed on the file system as it is at that moment, and appended to
`pages`. -/
def convertSource (qt : Qt) (d : PageConverterPrivate) (url : String) : PageConverterPrivate :=
  if url = "-" then
    let url := tempFileName qt d.uuids
    let d := { d with temporaryFiles := d.temporaryFiles ++ [url], uuids := d.uuids + 1,
                      written := d.written ++ [url] }
    { d with pages := d.pages ++ [{ url := guessUrlFromString (fileSystem qt d.written) url }] }
  else
    { d with pages := d.pages ++ [{ url := guessUrlFromString (fileSystem qt d.written) url }] }

/-- Source function `PageConverterPrivate::convert`. -/
def convert (qt : Qt) (d : PageConverterPrivate) : PageConverterPrivate :=
  let d := { d with networkError := 0, loginTry := 0 }
  let d :=
    if d.settings.cover ≠ "" then
      { d with settings := { d.settings with in_ := d.settings.cover :: d.settings.in_ } }
    else d
  d.settings.in_.foldl (convertSource qt) d

/-! ## Sequences of callbacks -/

/-- A load callback as the event loop delivers it; `page` tells which page sent
the signal (the slots themselves do not look at the sender). -/
inductive Event where
  | loadStarted (page : Nat)
  | loadFinished (page : Nat) (ok : Bool)
deriving DecidableEq

/-- The slot an event invokes. -/
def deliver (d : PageConverterPrivate) : Event → PageConverterPrivate
  | .loadStarted _ => loadStarted d
  | .loadFinished _ ok => loadFinished d ok

/-- Delivery of a sequence of load callbacks.  Once `exit` has been called the
process is gone and no further callback is delivered. -/
def deliverAll (d : PageConverterPrivate) : List Event → PageConverterPrivate
  | [] => d
  | e :: es => if d.exitCode.isSome then d else deliverAll (deliver d e) es

/-- Delivery of a sequence of finished network replies to `amfinished`. -/
def amfinishedAll (d : PageConverterPrivate) (replies : List QNetworkReply) :
    PageConverterPrivate :=
  replies.foldl amfinished d

/-- Delivery of a sequence of authentication challenges, each with its own reply
and authenticator: the final state, and every reply and authenticator as its
call left them. -/
def challenges (d : PageConverterPrivate) :
    List (QNetworkReply × QAuthenticator) →
      PageConverterPrivate × List (QNetworkReply × QAuthenticator)
  | [] => (d, [])
  | (reply, authenticator) :: rest =>
    let r := authenticationRequired d reply authenticator
    let t := challenges r.1 rest
    (t.1, r.2 :: t.2)

/-! ## Vocabulary of the specification -/

/-- The loads that have started and not yet finished, after a sequence of
callbacks that began with the loads `pending` in flight; `none` when some finish
is not preceded by a start of its own. -/
def pendingAfter (pending : List Nat) : List Event → Option (List Nat)
  | [] => some pending
  | .loadStarted p :: es => pendingAfter (p :: pending) es
  | .loadFinished p _ :: es =>
    if p ∈ pending then pendingAfter (pending.erase p) es else none

/-- The number of successful finishes that leave no load in flight, counted up
to the first failed finish. -/
def quiescences (pending : List Nat) : List Event → Nat
  | [] => 0
  | .loadStarted p :: es => quiescences (p :: pending) es
  | .loadFinished _ false :: _ => 0
  | .loadFinished p true :: es =>
    (if pending.erase p = [] then 1 else 0) + quiescences (pending.erase p) es

/-- No load starts after a finish has left no load in flight. -/
def noRestart (pending : List Nat) : List Event → Bool
  | [] => true
  | .loadStarted p :: es => noRestart (p :: pending) es
  | .loadFinished p _ :: es =>
    if pending.erase p = [] then es.all (fun e => !(e matches .loadStarted _))
    else noRestart (pending.erase p) es

/-- The largest number of loads in flight at any moment of a sequence of
callbacks that began with the loads `pending` in flight. -/
def peakInFlight (pending : List Nat) : List Event → Nat
  | [] => pending.length
  | .loadStarted p :: es => max pending.length (peakInFlight (p :: pending) es)
  | .loadFinished p _ :: es => max pending.length (peakInFlight (pending.erase p) es)

/-- The source sequence of a job: the cover, when one is set, then the inputs. -/
def sources (settings : Settings) : List String :=
  if settings.cover = "" then settings.in_ else settings.cover :: settings.in_

/-- The sources as `convert` loads them: every stdin source `-` replaced by the
name of the next temporary file, `k` identifiers having been drawn before. -/
def materialize (qt : Qt) (k : Nat) : List String → List String
  | [] => []
  | s :: ss =>
    if s = "-" then tempFileName qt k :: materialize qt (k + 1) ss
    else s :: materialize qt k ss

/-- The temporary files of the stdin sources among `srcs`, in order, `k`
identifiers having been drawn before. -/
def temporaries (qt : Qt) (k : Nat) (srcs : List String) : List String :=
  (List.range (srcs.count "-")).map (fun j => tempFileName qt (k + j))

/-- The locators the pages are told to load, in order: each source as
`materialize` gives it, guessed on the file system that holds the files
`written` and the temporary files made so far, the source's own included. -/
def dispatched (qt : Qt) (written : List String) (k : Nat) : List String → List QUrl
  | [] => []
  | s :: ss =>
    if s = "-" then
      guessUrlFromString (fileSystem qt (written ++ [tempFileName qt k])) (tempFileName qt k) ::
        dispatched qt (written ++ [tempFileName qt k]) (k + 1) ss
    else guessUrlFromString (fileSystem qt written) s :: dispatched qt written k ss

/-- A converter as its constructor leaves it, before `convert`: nothing loading,
no page, no temporary file, nothing reported or written.  The constructor does not
initialise `networkError` and `loginTry`; they are the parameters `e` and `t`. -/
def fresh (settings : Settings) (e t : Int) : PageConverterPrivate where
  settings := settings
  loading := 0
  networkError := e
  loginTry := t
  pages := []
  temporaryFiles := []
  feedback := []
  timers := []
  exitCode := none
  uuids := 0
  written := []

/-! ## Lemmas on `convert` -/

theorem convertSource_fields (qt : Qt) (d : PageConverterPrivate) (url : String) :
    (convertSource qt d url).settings = d.settings ∧
    (convertSource qt d url).loading = d.loading ∧
    (convertSource qt d url).networkError = d.networkError ∧
    (convertSource qt d url).loginTry = d.loginTry ∧
    (convertSource qt d url).feedback = d.feedback ∧
    (convertSource qt d url).timers = d.timers ∧
    (convertSource qt d url).exitCode = d.exitCode := by
  unfold convertSource
  split <;> simp

theorem foldl_convertSource_fields (qt : Qt) (urls : List String) (d : PageConverterPrivate) :
    (urls.foldl (convertSource qt) d).settings = d.settings ∧
    (urls.foldl (convertSource qt) d).loading = d.loading ∧
    (urls.foldl (convertSource qt) d).networkError = d.networkError ∧
    (urls.foldl (convertSource qt) d).loginTry = d.loginTry ∧
    (urls.foldl (convertSource qt) d).feedback = d.feedback ∧
    (urls.foldl (convertSource qt) d).timers = d.timers ∧
    (urls.foldl (convertSource qt) d).exitCode = d.exitCode := by
  induction urls generalizing d with
  | nil => simp
  | cons u us ih =>
    obtain ⟨h1, h2, h3, h4, h5, h6, h7⟩ := convertSource_fields qt d u
    obtain ⟨k1, k2, k3, k4, k5, k6, k7⟩ := ih (convertSource qt d u)
    simp only [List.foldl_cons]
    exact ⟨k1.trans h1, k2.trans h2, k3.trans h3, k4.trans h4, k5.trans h5, k6.trans h6,
      k7.trans h7⟩

theorem convert_resets (qt : Qt) (d : PageConverterPrivate) :
    (convert qt d).networkError = 0 ∧ (convert qt d).loginTry = 0 := by
  unfold convert
  simp only
  split <;>
  · rename_i h
    refine ⟨?_, ?_⟩
    · rw [(foldl_convertSource_fields qt _ _).2.2.1]
    · rw [(foldl_convertSource_fields qt _ _).2.2.2.1]

/-! ## The first fatal status code -/

theorem amfinishedAll_networkError (replies : List QNetworkReply) (d : PageConverterPrivate) :
    (amfinishedAll d replies).networkError =
      if d.networkError = 0 then
        ((replies.map (fun r => r.httpStatusCode)).find? (fun c => decide (400 ≤ c))).getD 0
      else d.networkError := by
  induction replies generalizing d with
  | nil =>
    simp only [amfinishedAll, List.foldl_nil, List.map_nil, List.find?_nil, Option.getD_none]
    split <;> simp_all
  | cons r rs ih =>
    have step : amfinishedAll d (r :: rs) = amfinishedAll (amfinished d r) rs := rfl
    rw [step, ih]
    unfold amfinished
    by_cases h0 : d.networkError = 0
    · by_cases hr : 400 ≤ r.httpStatusCode
      · have : r.httpStatusCode > 399 := by omega
        have hne : ¬ r.httpStatusCode = 0 := by omega
        simp [h0, hr, this, hne, List.find?]
      · have : ¬ r.httpStatusCode > 399 := by omega
        simp [h0, hr, this, List.find?]
    · simp [h0]

/-- Claim C2. In one job (`convert` resets `networkError` to 0), after any finite
sequence of replies delivered to `amfinished` the recorded code is the first
status code of the sequence that is at least 400, it is 0 exactly when no code
of the sequence is at least 400, and once a fatal code is recorded no later
reply changes it.  The sequence 404, 500, 200 records 404. -/
theorem amfinished_first_fatal_code (qt : Qt) (d0 : PageConverterPrivate)
    (replies later : List QNetworkReply) :
    (amfinishedAll (convert qt d0) replies).networkError =
        ((replies.map (fun r => r.httpStatusCode)).find? (fun c => decide (400 ≤ c))).getD 0 ∧
    ((amfinishedAll (convert qt d0) replies).networkError = 0 ↔
        ∀ r ∈ replies, ¬ 400 ≤ r.httpStatusCode) ∧
    ((amfinishedAll (convert qt d0) replies).networkError ≠ 0 →
        (amfinishedAll (convert qt d0) (replies ++ later)).networkError =
          (amfinishedAll (convert qt d0) replies).networkError) ∧
    (amfinishedAll (convert qt d0)
        [{ httpStatusCode := 404, aborted := false }, { httpStatusCode := 500, aborted := false },
          { httpStatusCode := 200, aborted := false }]).networkError = 404 := by
  have h0 := (convert_resets qt d0).1
  have hval := amfinishedAll_networkError replies (convert qt d0)
  rw [if_pos h0] at hval
  refine ⟨hval, ?_, ?_, ?_⟩
  · rw [hval]
    constructor
    · intro hz r hr h400
      cases hf : (replies.map (fun r => r.httpStatusCode)).find? (fun c => decide (400 ≤ c)) with
      | none =>
        rw [List.find?_eq_none] at hf
        have := hf r.httpStatusCode (List.mem_map_of_mem _ hr)
        simp at this
        omega
      | some c =>
        rw [hf] at hz
        have hc := List.find?_some hf
        simp at hz hc
        omega
    · intro hall
      have hf : (replies.map (fun r => r.httpStatusCode)).find? (fun c => decide (400 ≤ c)) = none := by
        rw [List.find?_eq_none]
        intro c hc
        obtain ⟨r, hr, rfl⟩ := List.mem_map.mp hc
        simpa using hall r hr
      rw [hf]
      rfl
  · intro hne
    have happ : amfinishedAll (convert qt d0) (replies ++ later) =
        amfinishedAll (amfinishedAll (convert qt d0) replies) later := by
      simp [amfinishedAll, List.foldl_append]
    rw [happ, amfinishedAll_networkError later, if_neg hne]
  · rw [amfinishedAll_networkError, if_pos h0]
    decide

theorem amfinished_first_fatal_code_witness :
    (amfinishedAll (convert (sampleQt []) (fresh ⟨"", "", "", ["example.com"], 200⟩ 7 7))
        [{ httpStatusCode := 200, aborted := false }, { httpStatusCode := 404, aborted := false },
          { httpStatusCode := 500, aborted := false }]).networkError = 404 :=
  ((amfinished_first_fatal_code (sampleQt []) (fresh ⟨"", "", "", ["example.com"], 200⟩ 7 7)
    [{ httpStatusCode := 200, aborted := false }, { httpStatusCode := 404, aborted := false },
          { httpStatusCode := 500, aborted := false }] []).1).trans (by decide)

/-! ## Authentication challenges -/

theorem challenges_cons (d : PageConverterPrivate) (c : QNetworkReply × QAuthenticator)
    (rest : List (QNetworkReply × QAuthenticator)) :
    challenges d (c :: rest) =
      ((challenges (authenticationRequired d c.1 c.2).1 rest).1,
        (authenticationRequired d c.1 c.2).2 ::
          (challenges (authenticationRequired d c.1 c.2).1 rest).2) := by
  cases c
  rfl

theorem challenges_no_username (cs : List (QNetworkReply × QAuthenticator))
    (d : PageConverterPrivate) (hu : d.settings.username = "") :
    challenges d cs =
      ({ d with feedback := d.feedback ++
            List.replicate cs.length (.error "Authentication Required\n") },
        cs.map (fun c => ({ c.1 with aborted := true }, c.2))) := by
  induction cs generalizing d with
  | nil => simp [challenges]
  | cons c rest ih =>
    have hstep : authenticationRequired d c.1 c.2 =
        ({ d with feedback := d.feedback ++ [.error "Authentication Required\n"] },
          { c.1 with aborted := true }, c.2) := by
      simp [authenticationRequired, hu]
    rw [challenges_cons, hstep]
    dsimp only
    rw [ih]
    · simp [List.replicate_succ]
    · exact hu

theorem challenges_exhausted (cs : List (QNetworkReply × QAuthenticator))
    (d : PageConverterPrivate) (hu : d.settings.username ≠ "") (ht : 2 ≤ d.loginTry) :
    challenges d cs =
      ({ d with feedback := d.feedback ++
            List.replicate cs.length (.error "Invalid username or password") },
        cs.map (fun c => ({ c.1 with aborted := true }, c.2))) := by
  induction cs generalizing d with
  | nil => simp [challenges]
  | cons c rest ih =>
    have hstep : authenticationRequired d c.1 c.2 =
        ({ d with feedback := d.feedback ++ [.error "Invalid username or password"] },
          { c.1 with aborted := true }, c.2) := by
      have : d.loginTry ≥ 2 := ht
      simp [authenticationRequired, hu, this]
    rw [challenges_cons, hstep]
    dsimp only
    rw [ih]
    · simp [List.replicate_succ]
    · exact hu
    · exact ht

theorem authenticationRequired_supply (d : PageConverterPrivate) (r : QNetworkReply)
    (a : QAuthenticator) (hu : d.settings.username ≠ "") (ht : d.loginTry < 2) :
    authenticationRequired d r a =
      ({ d with loginTry := d.loginTry + 1 }, r,
        { a with user := d.settings.username, password := d.settings.password }) := by
  have : ¬ d.loginTry ≥ 2 := by omega
  simp [authenticationRequired, hu, this]

theorem challenges_with_username (cs : List (QNetworkReply × QAuthenticator))
    (d : PageConverterPrivate) (hu : d.settings.username ≠ "") (ht : d.loginTry = 0) :
    (challenges d cs).2 =
        (cs.take 2).map (fun c =>
          (c.1, { c.2 with user := d.settings.username, password := d.settings.password })) ++
        (cs.drop 2).map (fun c => ({ c.1 with aborted := true }, c.2)) ∧
    (challenges d cs).1.feedback =
        d.feedback ++ List.replicate (cs.length - 2) (.error "Invalid username or password") ∧
    (challenges d cs).1.loginTry = min (cs.length : Int) 2 := by
  match cs with
  | [] => simp [challenges, ht]
  | [c] =>
    rw [challenges_cons, authenticationRequired_supply d c.1 c.2 hu (by omega)]
    simp [challenges, ht]
  | c1 :: c2 :: rest =>
    rw [challenges_cons, authenticationRequired_supply d c1.1 c1.2 hu (by omega)]
    dsimp only
    have e2 := authenticationRequired_supply { d with loginTry := d.loginTry + 1 } c2.1 c2.2 hu
      (by simp; omega)
    rw [challenges_cons, e2]
    dsimp only
    rw [challenges_exhausted rest]
    · simp [ht]
      omega
    · exact hu
    · simp [ht]

/-- Claim C1. In one job (the state is the one `convert` leaves, with `loginTry`
0), for every sequence of authentication challenges, whatever replies they come
from: when the configured username is empty every challenge has its reply
aborted and its authenticator left untouched, the error reported each time is
`Authentication Required` (the text ends with a line feed in the source) and
`loginTry` stays 0; otherwise the first two challenges (all of them when there
are fewer) get the configured username and password and keep their reply, every
challenge from the third on has its reply aborted and its authenticator left
untouched with the error `Invalid username or password`, and `loginTry` is
`min n 2`, never above 2 at any point of the sequence. -/
theorem authenticationRequired_retry_cap (qt : Qt) (d0 : PageConverterPrivate)
    (cs : List (QNetworkReply × QAuthenticator)) :
    ((convert qt d0).settings.username = "" →
      (challenges (convert qt d0) cs).2 = cs.map (fun c => ({ c.1 with aborted := true }, c.2)) ∧
      (challenges (convert qt d0) cs).1.feedback =
        (convert qt d0).feedback ++
          List.replicate cs.length (.error "Authentication Required\n") ∧
      ∀ k, (challenges (convert qt d0) (cs.take k)).1.loginTry = 0) ∧
    ((convert qt d0).settings.username ≠ "" →
      (challenges (convert qt d0) cs).2 =
        (cs.take 2).map (fun c =>
          (c.1, { c.2 with user := (convert qt d0).settings.username,
                           password := (convert qt d0).settings.password })) ++
        (cs.drop 2).map (fun c => ({ c.1 with aborted := true }, c.2)) ∧
      (challenges (convert qt d0) cs).1.feedback =
        (convert qt d0).feedback ++
          List.replicate (cs.length - 2) (.error "Invalid username or password") ∧
      (challenges (convert qt d0) cs).1.loginTry = min (cs.length : Int) 2 ∧
      ∀ k, (challenges (convert qt d0) (cs.take k)).1.loginTry ≤ 2) := by
  have h0 := (convert_resets qt d0).2
  refine ⟨fun hu => ?_, fun hu => ?_⟩
  · refine ⟨?_, ?_, fun k => ?_⟩
    · rw [challenges_no_username cs _ hu]
    · rw [challenges_no_username cs _ hu]
    · rw [challenges_no_username _ _ hu]
      exact h0
  · obtain ⟨h1, h2, h3⟩ := challenges_with_username cs _ hu h0
    refine ⟨h1, h2, h3, fun k => ?_⟩
    rw [(challenges_with_username (cs.take k) _ hu h0).2.2]
    exact min_le_right _ _

theorem authenticationRequired_retry_cap_witness :
    (challenges (convert (sampleQt []) (fresh ⟨"user", "secret", "", ["example.com"], 200⟩ 5 5))
        [(⟨401, false⟩, ⟨"a", "", ""⟩), (⟨401, false⟩, ⟨"b", "", ""⟩),
          (⟨401, false⟩, ⟨"a", "", ""⟩)]).2 =
      [(⟨401, false⟩, ⟨"a", "user", "secret"⟩), (⟨401, false⟩, ⟨"b", "user", "secret"⟩),
        (⟨401, true⟩, ⟨"a", "", ""⟩)] :=
  (((authenticationRequired_retry_cap (sampleQt [])
      (fresh ⟨"user", "secret", "", ["example.com"], 200⟩ 5 5)
      [(⟨401, false⟩, ⟨"a", "", ""⟩), (⟨401, false⟩, ⟨"b", "", ""⟩),
        (⟨401, false⟩, ⟨"a", "", ""⟩)]).2 (by decide)).1).trans (by decide)

/-! ## Load callbacks: one call -/

theorem wrap32_of_range (x : Int) (h1 : -2147483648 ≤ x) (h2 : x ≤ 2147483647) :
    wrap32 x = x := by
  unfold wrap32
  omega

theorem wrap32_succ (x : Int) : wrap32 (wrap32 x + 1) = wrap32 (x + 1) := by
  unfold wrap32
  omega

theorem wrap32_pred (x : Int) : wrap32 (wrap32 x - 1) = wrap32 (x - 1) := by
  unfold wrap32
  omega

theorem wrap32_eq_zero (n : Nat) (h : n < 4294967296) (hz : wrap32 (n : Int) = 0) : n = 0 := by
  unfold wrap32 at hz
  omega

theorem loadFinished_false (d : PageConverterPrivate) :
    loadFinished d false =
      { d with loading := wrap32 (d.loading - 1),
               feedback := d.feedback ++ [.error "Failed loading page"],
               exitCode := some 1 } := by
  simp [loadFinished]

theorem loadFinished_true (d : PageConverterPrivate) :
    loadFinished d true =
      { d with loading := wrap32 (d.loading - 1),
               feedback := d.feedback ++ [.nextState "Waiting for redirect"],
               timers := if wrap32 (d.loading - 1) = 0 then
                   d.timers ++ [{ msec := d.settings.jsredirectwait, slot := "preparePrint" }]
                 else d.timers } := by
  unfold loadFinished
  by_cases h : wrap32 (d.loading - 1) = 0 <;> simp [h]

/-! ## Load callbacks: sequences -/

theorem deliverAll_dead (evs : List Event) (d : PageConverterPrivate)
    (h : d.exitCode.isSome = true) : deliverAll d evs = d := by
  cases evs with
  | nil => rfl
  | cons e es => simp [deliverAll, h]

theorem deliverAll_cons_alive (d : PageConverterPrivate) (e : Event) (es : List Event)
    (h : d.exitCode = none) : deliverAll d (e :: es) = deliverAll (deliver d e) es := by
  simp [deliverAll, h]

theorem alive_or_dead (d : PageConverterPrivate) :
    d.exitCode = none ∨ d.exitCode.isSome = true := by
  cases hd : d.exitCode with
  | none => exact Or.inl rfl
  | some c => exact Or.inr rfl

theorem deliverAll_append (xs ys : List Event) (d : PageConverterPrivate) :
    deliverAll d (xs ++ ys) = deliverAll (deliverAll d xs) ys := by
  induction xs generalizing d with
  | nil => rfl
  | cons e es ih =>
    rcases alive_or_dead d with hn | h
    · rw [List.cons_append, deliverAll_cons_alive d e _ hn, deliverAll_cons_alive d e _ hn, ih]
    · rw [deliverAll_dead _ d h, deliverAll_dead _ d h, deliverAll_dead _ d h]

theorem deliverAll_singleton (d : PageConverterPrivate) (e : Event) (h : d.exitCode = none) :
    deliverAll d [e] = deliver d e := by
  simp [deliverAll, h]

theorem pendingAfter_append (xs ys : List Event) (pend : List Nat) :
    pendingAfter pend (xs ++ ys) = (pendingAfter pend xs).bind (fun r => pendingAfter r ys) := by
  induction xs generalizing pend with
  | nil => rfl
  | cons e es ih =>
    cases e with
    | loadStarted p => simp [pendingAfter, ih]
    | loadFinished p ok =>
      by_cases hp : p ∈ pend <;> simp [pendingAfter, hp, ih]

theorem pendingAfter_cons (e : Event) (es : List Event) (pend : List Nat) :
    pendingAfter pend (e :: es) = (pendingAfter pend [e]).bind (fun r => pendingAfter r es) :=
  pendingAfter_append [e] es pend

theorem pendingAfter_take (evs : List Event) (pend r : List Nat) (k : Nat)
    (h : pendingAfter pend evs = some r) : ∃ q, pendingAfter pend (evs.take k) = some q := by
  have hsplit : pendingAfter pend (evs.take k ++ evs.drop k) = some r := by
    rw [List.take_append_drop]
    exact h
  rw [pendingAfter_append] at hsplit
  cases hq : pendingAfter pend (evs.take k) with
  | none => simp [hq] at hsplit
  | some q => exact ⟨q, rfl⟩

theorem length_erase_of_mem (p : Nat) (pend : List Nat) (h : p ∈ pend) :
    ((pend.erase p).length : Int) = (pend.length : Int) - 1 := by
  have h1 := List.length_erase_of_mem h
  have h2 : 0 < pend.length := List.length_pos_of_mem h
  omega

/-- One callback keeps the counter equal to the number of loads in flight, in
32-bit arithmetic. -/
theorem deliver_loading (d : PageConverterPrivate) (e : Event) (pend r : List Nat)
    (hl : d.loading = wrap32 pend.length) (hw : pendingAfter pend [e] = some r) :
    (deliver d e).loading = wrap32 r.length := by
  cases e with
  | loadStarted p =>
    simp only [pendingAfter, Option.some.injEq] at hw
    subst hw
    simp only [deliver, loadStarted, hl, wrap32_succ, List.length_cons, Nat.cast_add,
      Nat.cast_one]
  | loadFinished p ok =>
    by_cases hp : p ∈ pend
    · simp only [pendingAfter, hp, if_true, Option.some.injEq] at hw
      subst hw
      rw [length_erase_of_mem p pend hp]
      cases ok
      · simp only [deliver, loadFinished_false, hl, wrap32_pred]
      · simp only [deliver, loadFinished_true, hl, wrap32_pred]
    · simp [pendingAfter, hp] at hw

/-! ### The peak number of loads in flight -/

theorem length_le_peakInFlight (evs : List Event) (pend : List Nat) :
    pend.length ≤ peakInFlight pend evs := by
  cases evs with
  | nil => exact Nat.le_refl _
  | cons e es =>
    cases e with
    | loadStarted p => exact Nat.le_max_left _ _
    | loadFinished p ok => exact Nat.le_max_left _ _

theorem peakInFlight_step (e : Event) (es : List Event) (pend q : List Nat)
    (hq : pendingAfter pend [e] = some q) :
    peakInFlight q es ≤ peakInFlight pend (e :: es) := by
  cases e with
  | loadStarted p =>
    simp only [pendingAfter, Option.some.injEq] at hq
    subst hq
    exact Nat.le_max_right _ _
  | loadFinished p ok =>
    by_cases hp : p ∈ pend
    · simp only [pendingAfter, hp, if_true, Option.some.injEq] at hq
      subst hq
      exact Nat.le_max_right _ _
    · simp [pendingAfter, hp] at hq

theorem peakInFlight_take (evs : List Event) (pend : List Nat) (k : Nat) :
    peakInFlight pend (evs.take k) ≤ peakInFlight pend evs := by
  induction evs generalizing pend k with
  | nil => simp
  | cons e es ih =>
    cases k with
    | zero => exact length_le_peakInFlight _ _
    | succ j =>
      cases e with
      | loadStarted p =>
        simp only [List.take_succ_cons, peakInFlight]
        exact max_le_max (Nat.le_refl _) (ih _ j)
      | loadFinished p ok =>
        simp only [List.take_succ_cons, peakInFlight]
        exact max_le_max (Nat.le_refl _) (ih _ j)

theorem pendingAfter_length_le_peak (evs : List Event) (pend r : List Nat)
    (hw : pendingAfter pend evs = some r) : r.length ≤ peakInFlight pend evs := by
  induction evs generalizing pend with
  | nil =>
    simp only [pendingAfter, Option.some.injEq] at hw
    subst hw
    exact Nat.le_refl _
  | cons e es ih =>
    rw [pendingAfter_cons] at hw
    cases hq : pendingAfter pend [e] with
    | none => simp [hq] at hw
    | some q =>
      rw [hq] at hw
      exact Nat.le_trans (ih q hw) (peakInFlight_step e es pend q hq)

/-! ### The counter along a sequence -/

theorem deliverAll_loading_alive (evs : List Event) (d : PageConverterPrivate)
    (pend r : List Nat) (hl : d.loading = wrap32 pend.length)
    (hw : pendingAfter pend evs = some r) (ha : (deliverAll d evs).exitCode = none) :
    (deliverAll d evs).loading = wrap32 r.length := by
  induction evs generalizing d pend with
  | nil =>
    simp only [pendingAfter, Option.some.injEq] at hw
    subst hw
    exact hl
  | cons e es ih =>
    rcases alive_or_dead d with hn | h
    · rw [deliverAll_cons_alive d e es hn] at ha ⊢
      rw [pendingAfter_cons] at hw
      cases hq : pendingAfter pend [e] with
      | none => simp [hq] at hw
      | some q =>
        rw [hq] at hw
        exact ih (deliver d e) q (deliver_loading d e pend q hl hq) hw ha
    · rw [deliverAll_dead _ d h] at ha
      simp [ha] at h

theorem deliverAll_loading_last (evs : List Event) (d : PageConverterPrivate)
    (r : List Nat) (hl : d.loading = 0) (hw : pendingAfter [] evs = some r)
    (ha : (deliverAll d evs.dropLast).exitCode = none) :
    (deliverAll d evs).loading = wrap32 r.length := by
  have hl0 : d.loading = wrap32 (([] : List Nat).length) := by
    rw [hl]
    rfl
  rcases List.eq_nil_or_concat evs with hnil | ⟨q, e, hqe⟩
  · subst hnil
    simp only [pendingAfter, Option.some.injEq] at hw
    subst hw
    exact hl0
  · subst hqe
    rw [List.concat_eq_append] at hw ha ⊢
    rw [List.dropLast_concat] at ha
    rw [pendingAfter_append] at hw
    cases hq : pendingAfter [] q with
    | none => simp [hq] at hw
    | some rq =>
      rw [hq] at hw
      have hlq := deliverAll_loading_alive q d [] rq hl0 hq ha
      rw [deliverAll_append, deliverAll_singleton _ e ha]
      exact deliver_loading _ e rq r hlq hw

theorem deliverAll_loading_nonneg (evs : List Event) (d : PageConverterPrivate)
    (pend r : List Nat) (hl : d.loading = wrap32 pend.length)
    (hw : pendingAfter pend evs = some r) (hb : peakInFlight pend evs ≤ 2147483647) :
    0 ≤ (deliverAll d evs).loading := by
  induction evs generalizing d pend with
  | nil =>
    simp only [deliverAll]
    simp only [peakInFlight] at hb
    rw [hl, wrap32_of_range _ (by omega) (by omega)]
    omega
  | cons e es ih =>
    rcases alive_or_dead d with hn | h
    · rw [deliverAll_cons_alive d e es hn]
      rw [pendingAfter_cons] at hw
      cases hq : pendingAfter pend [e] with
      | none => simp [hq] at hw
      | some q =>
        rw [hq] at hw
        exact ih (deliver d e) q (deliver_loading d e pend q hl hq) hw
          (Nat.le_trans (peakInFlight_step e es pend q hq) hb)
    · rw [deliverAll_dead _ d h]
      have := length_le_peakInFlight (e :: es) pend
      rw [hl, wrap32_of_range _ (by omega) (by omega)]
      omega

theorem deliverAll_starts (n : Nat) (d : PageConverterPrivate) (hl : d.loading = 0)
    (ha : d.exitCode = none) :
    (deliverAll d ((List.range n).map Event.loadStarted)).loading = wrap32 n ∧
    (deliverAll d ((List.range n).map Event.loadStarted)).exitCode = none ∧
    pendingAfter [] ((List.range n).map Event.loadStarted) = some (List.range n).reverse := by
  induction n with
  | zero =>
    exact ⟨hl, ha, rfl⟩
  | succ m ih =>
    obtain ⟨h1, h2, h3⟩ := ih
    rw [List.range_succ, List.map_append, deliverAll_append, pendingAfter_append, h3]
    simp only [List.map_cons, List.map_nil, deliverAll_singleton _ _ h2, deliver, loadStarted,
      h1, h2, Option.some_bind, pendingAfter, List.reverse_append, List.reverse_cons,
      List.reverse_nil, List.nil_append, List.singleton_append, wrap32_succ, Nat.cast_add,
      Nat.cast_one, and_self]

/-- Claim C4, as the code has it. Starting from 0, for every sequence of start
and finish callbacks in which each finish is preceded by a start of its own and
at no moment more than 2147483647 loads are in flight, after every initial
segment of it (`take k`) the counter `loading` is not negative; and as long as
the callbacks of the segment were delivered (the process had not called `exit`
before the segment's last callback), it equals the number of loads that have
started and not yet finished. -/
theorem loading_counts_loads_in_flight (d : PageConverterPrivate) (evs : List Event)
    (r : List Nat) (k : Nat) (hl : d.loading = 0) (hw : pendingAfter [] evs = some r)
    (hb : peakInFlight [] evs ≤ 2147483647) :
    0 ≤ (deliverAll d (evs.take k)).loading ∧
    ((deliverAll d (evs.take k).dropLast).exitCode = none →
      ∃ q, pendingAfter [] (evs.take k) = some q ∧
        (deliverAll d (evs.take k)).loading = q.length) := by
  obtain ⟨q, hq⟩ := pendingAfter_take evs [] r k hw
  have hbk : peakInFlight [] (evs.take k) ≤ 2147483647 :=
    Nat.le_trans (peakInFlight_take evs [] k) hb
  have hl0 : d.loading = wrap32 (([] : List Nat).length) := by
    rw [hl]
    rfl
  refine ⟨deliverAll_loading_nonneg _ d [] q hl0 hq hbk, fun ha => ⟨q, hq, ?_⟩⟩
  have hqb := pendingAfter_length_le_peak _ [] q hq
  rw [deliverAll_loading_last _ d q hl hq ha, wrap32_of_range _ (by omega) (by omega)]

theorem loading_counts_loads_in_flight_witness :
    0 ≤ (deliverAll (fresh ⟨"", "", "", ["a.html", "b.html"], 200⟩ 0 0)
      ([Event.loadStarted 0, .loadStarted 1, .loadFinished 1 true, .loadFinished 0 true].take
        3)).loading :=
  (loading_counts_loads_in_flight (fresh ⟨"", "", "", ["a.html", "b.html"], 200⟩ 0 0)
    [.loadStarted 0, .loadStarted 1, .loadFinished 1 true, .loadFinished 0 true] [] 3
    (by decide) (by decide) (by decide)).1

/-- Claim C4, counterexample. 2147483648 loads start, one after the other, and
none has finished: no finish lacks a start, the process is running, and the
32-bit counter has wrapped to -2147483648, which is negative and is not the
number of loads in flight. -/
theorem loading_negative_after_wrap :
    pendingAfter [] ((List.range 2147483648).map Event.loadStarted) =
      some (List.range 2147483648).reverse ∧
    (deliverAll (fresh ⟨"", "", "", ["a.html"], 200⟩ 0 0)
      ((List.range 2147483648).map Event.loadStarted)).exitCode = none ∧
    (deliverAll (fresh ⟨"", "", "", ["a.html"], 200⟩ 0 0)
      ((List.range 2147483648).map Event.loadStarted)).loading = -2147483648 := by
  obtain ⟨h1, h2, h3⟩ :=
    deliverAll_starts 2147483648 (fresh ⟨"", "", "", ["a.html"], 200⟩ 0 0) rfl rfl
  refine ⟨h3, h2, ?_⟩
  rw [h1]
  decide

/-- Claim C5. In every state, `loadFinished(false)` reports exactly one message,
the error `Failed loading page`, and calls `exit(1)`; it announces no phase and
starts no timer, also when this finish brings the counter to zero; and nothing
is delivered afterwards. -/
theorem loadFinished_failure_ends_job (d : PageConverterPrivate) (evs : List Event) :
    (loadFinished d false).feedback = d.feedback ++ [.error "Failed loading page"] ∧
    (loadFinished d false).exitCode = some 1 ∧
    (loadFinished d false).timers = d.timers ∧
    (loadFinished d false).loading = wrap32 (d.loading - 1) ∧
    (loadFinished { d with loading := 1 } false).loading = 0 ∧
    (loadFinished { d with loading := 1 } false).timers = d.timers ∧
    deliverAll (loadFinished d false) evs = loadFinished d false := by
  refine ⟨?_, ?_, ?_, ?_, ?_, ?_, ?_⟩
  · simp [loadFinished_false]
  · simp [loadFinished_false]
  · simp [loadFinished_false]
  · simp [loadFinished_false]
  · simp only [loadFinished_false]
    decide
  · simp [loadFinished_false]
  · exact deliverAll_dead evs _ (by simp [loadFinished_false])

/-! ## The settle timer -/

theorem deliverAll_timers (evs : List Event) (d : PageConverterPrivate) (pend r : List Nat)
    (hl : d.loading = wrap32 pend.length) (ha : d.exitCode = none)
    (hw : pendingAfter pend evs = some r) (hb : peakInFlight pend evs < 4294967296) :
    (deliverAll d evs).timers =
      d.timers ++ List.replicate (quiescences pend evs)
        { msec := d.settings.jsredirectwait, slot := "preparePrint" } := by
  induction evs generalizing d pend with
  | nil => simp [deliverAll, quiescences]
  | cons e es ih =>
    rw [deliverAll_cons_alive d e es ha]
    rw [pendingAfter_cons] at hw
    cases hq : pendingAfter pend [e] with
    | none => simp [hq] at hw
    | some q =>
      rw [hq] at hw
      have hlq := deliver_loading d e pend q hl hq
      have hbq : peakInFlight q es < 4294967296 :=
        Nat.lt_of_le_of_lt (peakInFlight_step e es pend q hq) hb
      have hqlen : q.length < 4294967296 :=
        Nat.lt_of_le_of_lt (length_le_peakInFlight es q) hbq
      cases e with
      | loadStarted p =>
        simp only [pendingAfter, Option.some.injEq] at hq
        subst hq
        rw [ih (deliver d (.loadStarted p)) (p :: pend) hlq
          (by simpa [deliver, loadStarted] using ha) hw hbq]
        simp [deliver, loadStarted, quiescences]
      | loadFinished p ok =>
        have hp : p ∈ pend := by
          by_contra hp
          simp [pendingAfter, hp] at hq
        simp only [pendingAfter, hp, if_true, Option.some.injEq] at hq
        subst hq
        cases ok
        · rw [deliverAll_dead es _ (by simp [deliver, loadFinished_false])]
          simp [deliver, loadFinished_false, quiescences]
        · rw [ih (deliver d (.loadFinished p true)) (pend.erase p) hlq
            (by simpa [deliver, loadFinished_true] using ha) hw hbq]
          have hcnt : wrap32 (d.loading - 1) = wrap32 ((pend.erase p).length) := by
            simpa [deliver, loadFinished_true] using hlq
          by_cases hz : pend.erase p = []
          · have h0 : wrap32 (d.loading - 1) = 0 := by
              rw [hcnt, hz]
              rfl
            simp [deliver, loadFinished_true, quiescences, hz, h0, Nat.add_comm 1,
              List.replicate_succ]
          · have h0 : ¬ wrap32 (d.loading - 1) = 0 := by
              rw [hcnt]
              intro hc
              exact hz (List.length_eq_zero.mp (wrap32_eq_zero _ hqlen hc))
            simp [deliver, loadFinished_true, quiescences, hz, h0]

theorem quiescences_le_one (evs : List Event) (pend r : List Nat)
    (hw : pendingAfter pend evs = some r) (hn : noRestart pend evs = true) :
    quiescences pend evs ≤ 1 := by
  induction evs generalizing pend with
  | nil => simp [quiescences]
  | cons e es ih =>
    cases e with
    | loadStarted p =>
      simp only [pendingAfter] at hw
      simp only [noRestart] at hn
      simpa [quiescences] using ih (p :: pend) hw hn
    | loadFinished p ok =>
      have hp : p ∈ pend := by
        by_contra hp
        simp [pendingAfter, hp] at hw
      simp only [pendingAfter, hp, if_true] at hw
      by_cases hz : pend.erase p = []
      · simp only [noRestart, hz, if_true] at hn
        rw [hz] at hw
        have hes : es = [] := by
          cases es with
          | nil => rfl
          | cons e2 es2 =>
            cases e2 with
            | loadStarted p2 => simp at hn
            | loadFinished p2 ok2 => simp [pendingAfter] at hw
        subst hes
        cases ok <;> simp [quiescences, hz]
      · simp only [noRestart, hz, if_false] at hn
        cases ok
        · simp [quiescences]
        · simpa [quiescences, hz] using ih (pend.erase p) hw hn

/-- Claim C3, as the code has it. In a running process whose counter is 0, for
every sequence of start and finish callbacks in which each finish is preceded by
a start of its own (and with fewer than 4294967296 loads in flight at any
moment, so that the 32-bit counter is 0 only when no load is in flight),
`preparePrint` is scheduled once for every successful finish that leaves no load
in flight (up to the first failed finish), each time with the delay
`jsredirectwait`; so it is scheduled at most once when no load starts again
after a finish has left no load in flight. -/
theorem preparePrint_once_per_quiescence (d : PageConverterPrivate) (evs : List Event)
    (r : List Nat) (hl : d.loading = 0) (ha : d.exitCode = none)
    (hw : pendingAfter [] evs = some r) (hb : peakInFlight [] evs < 4294967296) :
    (deliverAll d evs).timers =
      d.timers ++ List.replicate (quiescences [] evs)
        { msec := d.settings.jsredirectwait, slot := "preparePrint" } ∧
    (noRestart [] evs = true → (deliverAll d evs).timers.length ≤ d.timers.length + 1) := by
  have hl0 : d.loading = wrap32 (([] : List Nat).length) := by
    rw [hl]
    rfl
  have ht := deliverAll_timers evs d [] r hl0 ha hw hb
  refine ⟨ht, fun hn => ?_⟩
  rw [ht]
  have := quiescences_le_one evs [] r hw hn
  simp
  omega

theorem preparePrint_once_per_quiescence_witness :
    (deliverAll (fresh ⟨"", "", "", ["a.html", "b.html"], 200⟩ 0 0)
      [.loadStarted 0, .loadStarted 1, .loadFinished 1 true, .loadFinished 0 true]).timers =
      [{ msec := 200, slot := "preparePrint" }] :=
  ((preparePrint_once_per_quiescence (fresh ⟨"", "", "", ["a.html", "b.html"], 200⟩ 0 0)
    [.loadStarted 0, .loadStarted 1, .loadFinished 1 true, .loadFinished 0 true] []
    (by decide) (by decide) (by decide) (by decide)).1).trans (by decide)

/-- Claim C3, counterexample. A page starts, finishes, starts again (a script
redirect) and finishes again: each finish is preceded by its own start, and
`preparePrint` is scheduled twice. -/
theorem preparePrint_scheduled_twice :
    pendingAfter [] [.loadStarted 0, .loadFinished 0 true, .loadStarted 0, .loadFinished 0 true]
      = some [] ∧
    (deliverAll (fresh ⟨"", "", "", ["a.html"], 200⟩ 0 0)
      [.loadStarted 0, .loadFinished 0 true, .loadStarted 0, .loadFinished 0 true]).timers =
      [{ msec := 200, slot := "preparePrint" }, { msec := 200, slot := "preparePrint" }] ∧
    (deliverAll (fresh ⟨"", "", "", ["a.html"], 200⟩ 0 0)
      [.loadStarted 0, .loadFinished 0 true, .loadStarted 0, .loadFinished 0 true]).exitCode =
      none := by
  decide

/-- Claim C10, as the code has it. For every counter value `c`,
`loadFinished(true)` decrements the counter in 32-bit arithmetic, which is
`c - 1` for every `c` but the least one, -2147483648; it announces the phase
`Waiting for redirect`, and it starts a one-shot timer for `preparePrint` with
the delay `jsredirectwait` exactly when the decremented counter is 0 (no other
timer, no `exit`).  So at the moment a timer is started (a callback of a
sequence in which each finish is preceded by its own start, with fewer than
4294967296 loads in flight at any moment, makes the list of timers change) no
load that has started is unfinished. -/
theorem loadFinished_arms_settle_timer (d : PageConverterPrivate) (evs : List Event)
    (r : List Nat) (k : Nat) :
    (loadFinished d true).loading = wrap32 (d.loading - 1) ∧
    (-2147483648 < d.loading → d.loading ≤ 2147483647 →
      (loadFinished d true).loading = d.loading - 1) ∧
    (loadFinished d true).feedback = d.feedback ++ [.nextState "Waiting for redirect"] ∧
    ((loadFinished d true).loading = 0 →
      (loadFinished d true).timers =
        d.timers ++ [{ msec := d.settings.jsredirectwait, slot := "preparePrint" }]) ∧
    ((loadFinished d true).loading ≠ 0 → (loadFinished d true).timers = d.timers) ∧
    (loadFinished d true).exitCode = d.exitCode ∧
    (d.loading = 0 → pendingAfter [] evs = some r → peakInFlight [] evs < 4294967296 →
      (deliverAll d (evs.take (k + 1))).timers ≠ (deliverAll d (evs.take k)).timers →
      pendingAfter [] (evs.take (k + 1)) = some []) := by
  refine ⟨?_, ?_, ?_, ?_, ?_, ?_, ?_⟩
  · simp [loadFinished_true]
  · intro h1 h2
    simp only [loadFinished_true]
    exact wrap32_of_range _ (by omega) (by omega)
  · simp [loadFinished_true]
  · intro h
    simp only [loadFinished_true] at h ⊢
    rw [if_pos h]
  · intro h
    simp only [loadFinished_true] at h ⊢
    rw [if_neg h]
  · simp [loadFinished_true]
  · intro hl hw hb hne
    have hl0 : d.loading = wrap32 (([] : List Nat).length) := by
      rw [hl]
      rfl
    by_cases hk : k < evs.length
    · have htake : evs.take (k + 1) = evs.take k ++ [evs[k]] := by
        rw [List.take_succ, List.getElem?_eq_getElem hk]
        rfl
      obtain ⟨q, hq⟩ := pendingAfter_take evs [] r k hw
      obtain ⟨q1, hq1⟩ := pendingAfter_take evs [] r (k + 1) hw
      have hq1b : q1.length < 4294967296 :=
        Nat.lt_of_le_of_lt (pendingAfter_length_le_peak _ [] q1 hq1)
          (Nat.lt_of_le_of_lt (peakInFlight_take evs [] (k + 1)) hb)
      rw [htake] at hne hq1 ⊢
      rw [deliverAll_append] at hne
      rcases alive_or_dead (deliverAll d (evs.take k)) with hd | hd
      · have hlq := deliverAll_loading_alive _ d [] q hl0 hq hd
        rw [deliverAll_singleton _ _ hd] at hne
        rw [pendingAfter_append, hq] at hq1 ⊢
        simp only [Option.some_bind] at hq1 ⊢
        have hl1 := deliver_loading _ _ q q1 hlq hq1
        rw [hq1]
        generalize evs[k] = e at hne hq1 hl1
        cases e with
        | loadStarted p => simp [deliver, loadStarted] at hne
        | loadFinished p ok =>
          cases ok
          · simp [deliver, loadFinished_false] at hne
          · have h0 : wrap32 ((deliverAll d (evs.take k)).loading - 1) = 0 := by
              by_contra h0
              simp [deliver, loadFinished_true, h0] at hne
            have hz : wrap32 (q1.length : Int) = 0 := by
              rw [← hl1]
              simpa [deliver, loadFinished_true] using h0
            rw [List.length_eq_zero.mp (wrap32_eq_zero _ hq1b hz)]
      · rw [deliverAll_dead _ _ hd] at hne
        exact absurd rfl hne
    · have hke : evs.length ≤ k := by omega
      rw [List.take_of_length_le hke, List.take_of_length_le (by omega)] at hne
      exact absurd rfl hne

theorem loadFinished_arms_settle_timer_witness :
    pendingAfter []
      ([Event.loadStarted 0, .loadStarted 1, .loadFinished 1 true, .loadFinished 0 true].take
        (3 + 1)) = some [] :=
  (loadFinished_arms_settle_timer (fresh ⟨"", "", "", ["a.html", "b.html"], 200⟩ 0 0)
    [.loadStarted 0, .loadStarted 1, .loadFinished 1 true, .loadFinished 0 true] [] 3).2.2.2.2.2.2
    (by decide) (by decide) (by decide) (by decide)

/-- Claim C10, counterexample. A page starts, finishes and starts again: the
timer started by the finish is still there (nothing cancels it) while a load
that has started is unfinished and the counter is 1.  And at the counter value
-2147483648 the decrement gives 2147483647, not one less. -/
theorem settle_timer_armed_while_loading :
    pendingAfter [] [.loadStarted 0, .loadFinished 0 true, .loadStarted 0] = some [0] ∧
    (deliverAll (fresh ⟨"", "", "", ["a.html"], 200⟩ 0 0)
      [.loadStarted 0, .loadFinished 0 true, .loadStarted 0]).timers =
      [{ msec := 200, slot := "preparePrint" }] ∧
    (deliverAll (fresh ⟨"", "", "", ["a.html"], 200⟩ 0 0)
      [.loadStarted 0, .loadFinished 0 true, .loadStarted 0]).loading = 1 ∧
    (deliverAll (fresh ⟨"", "", "", ["a.html"], 200⟩ 0 0)
      [.loadStarted 0, .loadFinished 0 true, .loadStarted 0]).exitCode = none ∧
    (loadFinished { fresh ⟨"", "", "", ["a.html"], 200⟩ 0 0 with loading := -2147483648 }
      true).loading = 2147483647 := by
  decide
/-! ## The locator guesser -/

theorem guessUrlFromString_eq (qt : Qt) (string : String) :
    guessUrlFromString qt string =
      if test (urlStrOf string) = true ∧ (qualifiedUrl qt (urlStrOf string)).isValid = true then
        qualifiedUrl qt (urlStrOf string)
      else if qt.fileExists (urlStrOf string) = true then
        qt.fromLocalFile (qt.absoluteFilePath (urlStrOf string))
      else if test (urlStrOf string) = false ∧ indexOf (urlStrOf string) '.' ≠ -1 ∧
          (shortUrl qt (urlStrOf string)).isValid = true then
        shortUrl qt (urlStrOf string)
      else fallbackUrl qt string := by
  have key : ∀ u : String, u = urlStrOf string → guessUrlFromString qt string =
      if test u = true ∧ (qualifiedUrl qt u).isValid = true then qualifiedUrl qt u
      else if qt.fileExists u = true then qt.fromLocalFile (qt.absoluteFilePath u)
      else if test u = false ∧ indexOf u '.' ≠ -1 ∧ (shortUrl qt u).isValid = true then
        shortUrl qt u
      else fallbackUrl qt string := by
    intro u hu
    unfold guessUrlFromString urlStrOf at *
    simp only [Id.run, Id.pure_eq, Id.bind_eq, pure, bind]
    cases h1 : hostWithPort (trimmed string) <;>
    simp only [h1, if_true, if_false, Bool.false_eq_true] at hu ⊢ <;>
    rw [← hu] <;> unfold qualifiedUrl shortUrl shortSchema fallbackUrl <;>
    cases h2 : test u <;> cases h3 : qt.fileExists u <;>
    cases h4 : (if isAscii u = true then qt.fromEncoded u else qt.tolerant u).isValid <;>
    simp [h2, h3, h4] <;>
    split_ifs <;> simp_all
  exact key _ rfl

theorem dropWhile_append_stop {α : Type} (f : α → Bool) (xs : List α) (y : α) (ys : List α)
    (hx : ∀ x ∈ xs, f x = true) (hy : f y = false) :
    (xs ++ y :: ys).dropWhile f = y :: ys ∧ (xs ++ y :: ys).takeWhile f = xs := by
  induction xs with
  | nil => simp [List.dropWhile, List.takeWhile, hy]
  | cons x xs ih =>
    have hx1 : f x = true := hx x (List.mem_cons_self _ _)
    have ih2 := ih (fun z hz => hx z (List.mem_cons_of_mem _ hz))
    simp [List.dropWhile, List.takeWhile, hx1, ih2]

/-- The matcher `hostWithPort` accepts exactly the texts made of one or more
letters or dots, a colon, and digits only. -/
theorem hostWithPort_iff (s : String) :
    hostWithPort s = true ↔
      ∃ host port : List Char, s.data = host ++ ':' :: port ∧ host ≠ [] ∧
        (∀ c ∈ host, isLetterOrDot c = true) ∧ (∀ c ∈ port, isDigit c = true) := by
  constructor
  · intro h
    unfold hostWithPort at h
    have hsplit := List.takeWhile_append_dropWhile isLetterOrDot s.data
    split at h
    · rename_i port hdrop
      simp only [Bool.and_eq_true, Bool.not_eq_true', List.all_eq_true] at h
      refine ⟨s.data.takeWhile isLetterOrDot, port, ?_, ?_, ?_, h.2⟩
      · rw [← hdrop, hsplit]
      · intro hnil
        simp [hnil] at h
      · intro c hc
        exact List.mem_takeWhile_imp hc
    · simp at h
  · rintro ⟨host, port, hs, hne, hh, hp⟩
    have hcolon : isLetterOrDot ':' = false := by decide
    obtain ⟨hd, ht⟩ := dropWhile_append_stop isLetterOrDot host ':' port hh hcolon
    unfold hostWithPort
    rw [hs, hd, ht]
    simp only [Bool.and_eq_true, Bool.not_eq_true', List.all_eq_true]
    refine ⟨?_, hp⟩
    cases host with
    | nil => exact absurd rfl hne
    | cons a as => rfl

/-- The matcher `test` accepts exactly the texts that start with one or more
letters followed by a colon. -/
theorem test_iff (s : String) :
    test s = true ↔
      ∃ letters rest : List Char, s.data = letters ++ ':' :: rest ∧ letters ≠ [] ∧
        (∀ c ∈ letters, isLetter c = true) := by
  constructor
  · intro h
    unfold test at h
    have hsplit := List.takeWhile_append_dropWhile isLetter s.data
    split at h
    · rename_i rest hdrop
      refine ⟨s.data.takeWhile isLetter, rest, ?_, ?_, ?_⟩
      · rw [← hdrop, hsplit]
      · intro hnil
        simp [hnil] at h
      · intro c hc
        exact List.mem_takeWhile_imp hc
    · simp at h
  · rintro ⟨letters, rest, hs, hne, hl⟩
    have hcolon : isLetter ':' = false := by decide
    obtain ⟨hd, ht⟩ := dropWhile_append_stop isLetter letters ':' rest hl hcolon
    unfold test
    rw [hs, hd, ht]
    cases letters with
    | nil => exact absurd rfl hne
    | cons a as => rfl

theorem isLetter_lt (c : Char) (h : isLetter c = true) : c.toNat < 0x80 := by
  unfold isLetter at h
  simp only [Bool.or_eq_true, Bool.and_eq_true, decide_eq_true_eq] at h
  omega

theorem isLetterOrDot_lt (c : Char) (h : isLetterOrDot c = true) : c.toNat < 0x80 := by
  unfold isLetterOrDot at h
  simp only [Bool.or_eq_true, beq_iff_eq] at h
  rcases h with h | h
  · exact isLetter_lt c h
  · subst h
    decide

theorem isDigit_lt (c : Char) (h : isDigit c = true) : c.toNat < 0x80 := by
  unfold isDigit at h
  simp only [Bool.and_eq_true, decide_eq_true_eq] at h
  omega

theorem http_hostWithPort (s : String) (h : hostWithPort s = true) :
    test ("http://" ++ s) = true ∧ isAscii ("http://" ++ s) = true := by
  obtain ⟨host, port, hs, -, hh, hp⟩ := (hostWithPort_iff s).mp h
  constructor
  · rw [test_iff]
    refine ⟨"http".data, "//".data ++ s.data, ?_, by decide, by decide⟩
    simp [String.data_append]
  · have hhttp : ∀ c ∈ "http://".data, c.toNat < 0x80 := by decide
    unfold isAscii
    rw [String.data_append, List.all_eq_true]
    intro c hc
    rw [decide_eq_true_eq]
    rcases List.mem_append.mp hc with h1 | h1
    · exact hhttp c h1
    · rw [hs] at h1
      rcases List.mem_append.mp h1 with h2 | h2
      · exact isLetterOrDot_lt c (hh c h2)
      · rcases List.mem_cons.mp h2 with h3 | h3
        · subst h3
          decide
        · exact isDigit_lt c (hp c h3)

/-- Claim C6. For every input whose trimmed form is one or more letters or dots,
a colon, then digits only: the working string becomes `http://` followed by the
trimmed input before anything else is tried; that string has a scheme-like start
and is plain ASCII, so it is the text given to the parser (`fromEncoded`); and
when the parser accepts it that parse is the result, whatever the file system
and the other parser say. -/
theorem guessUrlFromString_host_with_port (qt : Qt) (string : String)
    (host port : List Char) (hs : (trimmed string).data = host ++ ':' :: port)
    (hne : host ≠ []) (hh : ∀ c ∈ host, isLetter c = true ∨ c = '.')
    (hp : ∀ c ∈ port, isDigit c = true) :
    urlStrOf string = "http://" ++ trimmed string ∧
    qualifiedUrl qt (urlStrOf string) = qt.fromEncoded ("http://" ++ trimmed string) ∧
    ((qt.fromEncoded ("http://" ++ trimmed string)).isValid = true →
      guessUrlFromString qt string = qt.fromEncoded ("http://" ++ trimmed string) ∧
      ∀ qt2 : Qt, qt2.fromEncoded = qt.fromEncoded →
        guessUrlFromString qt2 string = guessUrlFromString qt string) := by
  have hm : hostWithPort (trimmed string) = true := by
    rw [hostWithPort_iff]
    refine ⟨host, port, hs, hne, fun c hc => ?_, hp⟩
    unfold isLetterOrDot
    rcases hh c hc with h | h
    · simp [h]
    · simp [h]
  obtain ⟨ht, ha⟩ := http_hostWithPort _ hm
  have hu : urlStrOf string = "http://" ++ trimmed string := by
    simp [urlStrOf, hm]
  have hq : ∀ q : Qt, qualifiedUrl q (urlStrOf string) =
      q.fromEncoded ("http://" ++ trimmed string) := by
    intro q
    simp [qualifiedUrl, hu, ha]
  have hg : ∀ q : Qt, (q.fromEncoded ("http://" ++ trimmed string)).isValid = true →
      guessUrlFromString q string = q.fromEncoded ("http://" ++ trimmed string) := by
    intro q hv
    rw [guessUrlFromString_eq, hq q, hu, if_pos ⟨ht, hv⟩]
  refine ⟨hu, hq qt, fun hv => ⟨hg qt hv, fun qt2 h2 => ?_⟩⟩
  rw [hg qt hv, hg qt2 (by rw [h2]; exact hv), h2]

theorem guessUrlFromString_host_with_port_witness :
    guessUrlFromString (sampleQt []) "example.com:8080" =
      { isValid := true, scheme := "http", host := "example.com", port := 8080, path := "" } :=
  (((guessUrlFromString_host_with_port (sampleQt []) "example.com:8080" "example.com".data
    "8080".data (by decide) (by decide) (by decide) (by decide)).2.2 (by decide)).1).trans
    (by decide)

theorem urlStrOf_plain (string : String) (h : hostWithPort (trimmed string) = false) :
    urlStrOf string = trimmed string := by
  simp [urlStrOf, h]

theorem take_indexOf (c : Char) (l : List Char) (h : c ∈ l) :
    l.take (l.indexOf c) = l.takeWhile (fun x => x != c) := by
  induction l with
  | nil => simp at h
  | cons a as ih =>
    by_cases hac : a = c
    · subst hac
      simp [List.indexOf_cons_self, List.takeWhile]
    · have hmem : c ∈ as := by
        rcases List.mem_cons.mp h with h1 | h1
        · exact absurd h1.symm hac
        · exact h1
      have hne : (a != c) = true := by simpa using hac
      rw [List.indexOf_cons_ne _ hac, List.take_succ_cons, ih hmem, List.takeWhile_cons, hne]
      rfl

theorem left_indexOf (u : String) (c : Char) (h : c ∈ u.data) :
    left u (indexOf u c) = String.mk (u.data.takeWhile (fun x => x != c)) := by
  unfold left indexOf
  rw [if_pos h]
  have hnn : ¬ ((u.data.indexOf c : Nat) : Int) < 0 := by omega
  rw [if_neg hnn, Int.toNat_ofNat, take_indexOf c u.data h]

theorem indexOf_ne_neg_one (u : String) (c : Char) (h : c ∈ u.data) : indexOf u c ≠ -1 := by
  unfold indexOf
  rw [if_pos h]
  omega

/-- Claim C7, as the code has it. For every input whose trimmed form matches
neither the host-with-port pattern nor the scheme pattern, is not an existing
file and contains a dot: the scheme put in front is `ftp` exactly when the text
before the first dot, lower-cased, is `ftp`, and `http` otherwise; and when the
candidate `scheme://` followed by the trimmed input is valid it is the result. -/
theorem guessUrlFromString_short_url (qt : Qt) (string : String)
    (hhp : hostWithPort (trimmed string) = false) (hs : test (trimmed string) = false)
    (hf : qt.fileExists (trimmed string) = false) (hdot : '.' ∈ (trimmed string).data) :
    (shortSchema (trimmed string) = "ftp" ↔
      toLower (String.mk ((trimmed string).data.takeWhile (fun c => c != '.'))) = "ftp") ∧
    (shortSchema (trimmed string) = "http" ↔
      toLower (String.mk ((trimmed string).data.takeWhile (fun c => c != '.'))) ≠ "ftp") ∧
    ((qt.tolerant (shortSchema (trimmed string) ++ "://" ++ trimmed string)).isValid = true →
      guessUrlFromString qt string =
        qt.tolerant (shortSchema (trimmed string) ++ "://" ++ trimmed string)) := by
  have hsch : shortSchema (trimmed string) =
      if toLower (String.mk ((trimmed string).data.takeWhile (fun c => c != '.'))) = "ftp"
      then "ftp" else "http" := by
    unfold shortSchema
    rw [left_indexOf _ _ hdot]
    split_ifs with h
    · exact h
    · rfl
  refine ⟨?_, ?_, fun hv => ?_⟩
  · rw [hsch]
    split_ifs with h
    · simp [h]
    · simp [h]
  · rw [hsch]
    split_ifs with h
    · simp [h]
    · simp [h]
  · rw [guessUrlFromString_eq, urlStrOf_plain _ hhp]
    have h1 : ¬ (test (trimmed string) = true ∧
        (qualifiedUrl qt (trimmed string)).isValid = true) := by simp [hs]
    have h2 : ¬ qt.fileExists (trimmed string) = true := by simp [hf]
    rw [if_neg h1, if_neg h2, if_pos ⟨hs, indexOf_ne_neg_one _ _ hdot, hv⟩]
    rfl

theorem guessUrlFromString_short_url_witness :
    guessUrlFromString (sampleQt []) "ftp.example.com/file" =
        { isValid := true, scheme := "ftp", host := "ftp.example.com", port := -1,
          path := "/file" } ∧
    guessUrlFromString (sampleQt []) "example.com" =
        { isValid := true, scheme := "http", host := "example.com", port := -1, path := "" } :=
  ⟨((guessUrlFromString_short_url (sampleQt []) "ftp.example.com/file" (by decide) (by decide)
      (by decide) (by decide)).2.2 (by decide)).trans (by decide),
    ((guessUrlFromString_short_url (sampleQt []) "example.com" (by decide) (by decide)
      (by decide) (by decide)).2.2 (by decide)).trans (by decide)⟩

/-- Claim C7, counterexample. `ftp.example.com:21` has no scheme-like start, is
not an existing file, contains a dot, and the text before its first dot is
`ftp`, so the claim's candidate is `ftp://ftp.example.com:21`, which is valid;
but the input has the host-with-port shape, `http://` is put in front first, and
the result has the scheme `http`. -/
theorem short_url_wrong_for_host_with_port :
    test "ftp.example.com:21" = false ∧
    (sampleQt []).fileExists "ftp.example.com:21" = false ∧
    '.' ∈ "ftp.example.com:21".data ∧
    toLower (String.mk ("ftp.example.com:21".data.takeWhile (fun c => c != '.'))) = "ftp" ∧
    ((sampleQt []).tolerant ("ftp" ++ "://" ++ "ftp.example.com:21")).isValid = true ∧
    guessUrlFromString (sampleQt []) "ftp.example.com:21" ≠
      (sampleQt []).tolerant ("ftp" ++ "://" ++ "ftp.example.com:21") ∧
    guessUrlFromString (sampleQt []) "ftp.example.com:21" =
      { isValid := true, scheme := "http", host := "ftp.example.com", port := 21, path := "" } := by
  decide

/-- Claim C8, as the code has it. For every path whose trimmed form names an
existing file, does not have the host-with-port shape, and either has no
scheme-like start or is not accepted by the parser, the result is the local-file
locator of the absolute form of the trimmed path. -/
theorem guessUrlFromString_existing_file (qt : Qt) (path : String)
    (hex : qt.fileExists (trimmed path) = true) (hhp : hostWithPort (trimmed path) = false)
    (hq : test (trimmed path) = false ∨ (qualifiedUrl qt (trimmed path)).isValid = false) :
    guessUrlFromString qt path = qt.fromLocalFile (qt.absoluteFilePath (trimmed path)) := by
  rw [guessUrlFromString_eq, urlStrOf_plain _ hhp]
  have h1 : ¬ (test (trimmed path) = true ∧
      (qualifiedUrl qt (trimmed path)).isValid = true) := by
    rcases hq with h | h
    · simp [h]
    · simp [h]
  rw [if_neg h1, if_pos hex]

theorem guessUrlFromString_existing_file_witness :
    guessUrlFromString (sampleQt ["page.html"]) "page.html" =
      { isValid := true, scheme := "file", host := "", port := -1, path := "/work/page.html" } :=
  (guessUrlFromString_existing_file (sampleQt ["page.html"]) "page.html" (by decide) (by decide)
    (Or.inl (by decide))).trans (by decide)

/-- Claim C8, counterexample. On a machine whose only file is `page.html ` (the
name ends with a blank), that path is looked up without the blank, is not found,
and is read as a host name; on a machine whose only file is `notes:today`, that
path is read as a locator with the scheme `notes`; on a machine whose only file
is `a.b:80`, that path is read as a host with a port.  None of the results is
the local-file locator of the existing file. -/
theorem existing_file_not_always_found :
    (sampleQt ["page.html "]).fileExists "page.html " = true ∧
    guessUrlFromString (sampleQt ["page.html "]) "page.html " =
      { isValid := true, scheme := "http", host := "page.html", port := -1, path := "" } ∧
    guessUrlFromString (sampleQt ["page.html "]) "page.html " ≠
      (sampleQt ["page.html "]).fromLocalFile
        ((sampleQt ["page.html "]).absoluteFilePath "page.html ") ∧
    (sampleQt ["notes:today"]).fileExists "notes:today" = true ∧
    guessUrlFromString (sampleQt ["notes:today"]) "notes:today" =
      { isValid := true, scheme := "notes", host := "", port := -1, path := "today" } ∧
    guessUrlFromString (sampleQt ["notes:today"]) "notes:today" ≠
      (sampleQt ["notes:today"]).fromLocalFile
        ((sampleQt ["notes:today"]).absoluteFilePath "notes:today") ∧
    (sampleQt ["a.b:80"]).fileExists "a.b:80" = true ∧
    guessUrlFromString (sampleQt ["a.b:80"]) "a.b:80" =
      { isValid := true, scheme := "http", host := "a.b", port := 80, path := "" } ∧
    guessUrlFromString (sampleQt ["a.b:80"]) "a.b:80" ≠
      (sampleQt ["a.b:80"]).fromLocalFile ((sampleQt ["a.b:80"]).absoluteFilePath "a.b:80") := by
  decide

/-! ## Dispatch -/

theorem temporaries_cons_stdin (qt : Qt) (k : Nat) (l : List String) :
    temporaries qt k ("-" :: l) = tempFileName qt k :: temporaries qt (k + 1) l := by
  unfold temporaries
  have hc : List.count "-" ("-" :: l) = List.count "-" l + 1 := by simp
  rw [hc, List.range_succ_eq_map]
  simp [Nat.add_assoc, Nat.add_comm 1, Function.comp_def]

theorem temporaries_cons_other (qt : Qt) (k : Nat) (a : String) (l : List String)
    (ha : a ≠ "-") : temporaries qt k (a :: l) = temporaries qt k l := by
  unfold temporaries
  rw [List.count_cons_of_ne (Ne.symm ha)]

theorem foldl_convertSource (qt : Qt) (urls : List String) (d : PageConverterPrivate) :
    (urls.foldl (convertSource qt) d).pages =
        d.pages ++ (dispatched qt d.written d.uuids urls).map (fun u => { url := u }) ∧
    (urls.foldl (convertSource qt) d).temporaryFiles =
        d.temporaryFiles ++ temporaries qt d.uuids urls ∧
    (urls.foldl (convertSource qt) d).written = d.written ++ temporaries qt d.uuids urls := by
  induction urls generalizing d with
  | nil => simp [dispatched, temporaries]
  | cons u us ih =>
    obtain ⟨h1, h2, h3⟩ := ih (convertSource qt d u)
    rw [List.foldl_cons, h1, h2, h3]
    by_cases hu : u = "-"
    · subst hu
      rw [temporaries_cons_stdin]
      simp [convertSource, dispatched]
    · rw [temporaries_cons_other qt _ u us hu]
      simp [convertSource, dispatched, hu]

theorem dispatched_length (qt : Qt) (srcs : List String) (w : List String) (k : Nat) :
    (dispatched qt w k srcs).length = srcs.length := by
  induction srcs generalizing w k with
  | nil => rfl
  | cons s ss ih =>
    unfold dispatched
    split <;> simp [ih]

theorem materialize_length (qt : Qt) (srcs : List String) (k : Nat) :
    (materialize qt k srcs).length = srcs.length := by
  induction srcs generalizing k with
  | nil => rfl
  | cons s ss ih =>
    unfold materialize
    split <;> simp [ih]

theorem materialize_getElem (qt : Qt) (srcs : List String) (k i : Nat) (s : String)
    (h : srcs[i]? = some s) :
    (materialize qt k srcs)[i]? =
      some (if s = "-" then tempFileName qt (k + (srcs.take i).count "-") else s) := by
  induction srcs generalizing k i with
  | nil => simp at h
  | cons a as ih =>
    cases i with
    | zero =>
      simp only [List.getElem?_cons_zero, Option.some.injEq] at h
      subst h
      unfold materialize
      split <;> simp
    | succ j =>
      simp only [List.getElem?_cons_succ] at h
      unfold materialize
      by_cases ha : a = "-"
      · subst ha
        rw [if_pos rfl, List.getElem?_cons_succ, ih (k + 1) j h]
        simp [Nat.add_assoc, Nat.add_comm 1]
      · rw [if_neg ha, List.getElem?_cons_succ, ih k j h, List.take_succ_cons,
          List.count_cons_of_ne (Ne.symm ha)]

theorem dispatched_getElem (qt : Qt) (srcs : List String) (w : List String) (k i : Nat)
    (s : String) (h : srcs[i]? = some s) :
    (dispatched qt w k srcs)[i]? =
      some (guessUrlFromString (fileSystem qt (w ++ temporaries qt k (srcs.take (i + 1))))
        (if s = "-" then tempFileName qt (k + (srcs.take i).count "-") else s)) := by
  induction srcs generalizing w k i with
  | nil => simp at h
  | cons a as ih =>
    cases i with
    | zero =>
      simp only [List.getElem?_cons_zero, Option.some.injEq] at h
      subst h
      unfold dispatched
      by_cases ha : a = "-"
      · subst ha
        simp [temporaries, List.range_succ]
      · simp [temporaries, ha, List.count_cons_of_ne (Ne.symm ha)]
    | succ j =>
      simp only [List.getElem?_cons_succ] at h
      unfold dispatched
      by_cases ha : a = "-"
      · subst ha
        rw [if_pos rfl, List.getElem?_cons_succ, ih _ (k + 1) j h, List.take_succ_cons,
          temporaries_cons_stdin, List.take_succ_cons]
        simp [Nat.add_assoc, Nat.add_comm 1]
      · rw [if_neg ha, List.getElem?_cons_succ, ih _ k j h, List.take_succ_cons,
          temporaries_cons_other qt k a _ ha, List.take_succ_cons,
          List.count_cons_of_ne (Ne.symm ha)]

theorem count_take_lt (srcs : List String) (i : Nat) (h : srcs[i]? = some "-") :
    (srcs.take i).count "-" < (srcs.take (i + 1)).count "-" ∧
    (srcs.take (i + 1)).count "-" ≤ srcs.count "-" := by
  have hi : i < srcs.length := by
    by_contra hc
    rw [List.getElem?_eq_none (by omega)] at h
    exact absurd h (by simp)
  have h1 : srcs.take (i + 1) = srcs.take i ++ ["-"] := by
    rw [List.take_succ, h]
    rfl
  constructor
  · rw [h1, List.count_append]
    simp
  · have h2 : srcs = srcs.take (i + 1) ++ srcs.drop (i + 1) := (List.take_append_drop _ _).symm
    conv_rhs => rw [h2, List.count_append]
    omega

theorem string_append_left_cancel (a b c : String) (h : a ++ b = a ++ c) : b = c := by
  have hd := congrArg String.data h
  rw [String.data_append, String.data_append] at hd
  exact String.ext (List.append_cancel_left hd)

theorem string_append_right_cancel (a b c : String) (h : a ++ c = b ++ c) : a = b := by
  have hd := congrArg String.data h
  rw [String.data_append, String.data_append] at hd
  exact String.ext (List.append_cancel_right hd)

theorem tempFileName_injective (qt : Qt) (hinj : Function.Injective qt.createUuid) :
    Function.Injective (tempFileName qt) := by
  intro j k h
  unfold tempFileName at h
  exact hinj (string_append_left_cancel _ _ _ (string_append_right_cancel _ _ _ h))

theorem convert_eq (qt : Qt) (d : PageConverterPrivate) :
    convert qt d =
      (sources d.settings).foldl (convertSource qt)
        { d with networkError := 0, loginTry := 0,
                 settings := { d.settings with in_ := sources d.settings } } := by
  obtain ⟨⟨u, p, c, i, w⟩, l, e, t, pg, tf, fb, tm, ex, uu, wr⟩ := d
  unfold convert sources
  by_cases hc : c = ""
  · subst hc
    simp
  · simp [hc]

/-- Claim C9. For every input list and cover setting, `convert` goes through the
sources in order, the cover first when it is not empty.  After the pages the
converter already holds (none on a newly constructed one), `pages` gets one page
per source, in that order, `|in|` of them plus one when a cover is set; the
`i`-th is loaded with `guessUrlFromString` of the `i`-th source, called on the
file system as it is then, with the temporary files of the stdin sources up to
and including the `i`-th written.  A source other than `-` is taken as it is; a
source `-` is replaced by the name of a temporary file, which exists when the
locator is guessed and is recorded in `temporaryFiles`.  `temporaryFiles` gets
one entry per `-` source, and the entries differ from one another when the
identifiers drawn do. -/
theorem convert_dispatch_order (qt : Qt) (d : PageConverterPrivate) :
    (convert qt d).settings.in_ = sources d.settings ∧
    (convert qt d).pages =
      d.pages ++ (dispatched qt d.written d.uuids (sources d.settings)).map
        (fun u => { url := u }) ∧
    (convert qt d).pages.length =
      d.pages.length + (d.settings.in_.length + (if d.settings.cover = "" then 0 else 1)) ∧
    (materialize qt d.uuids (sources d.settings)).length = (sources d.settings).length ∧
    (∀ (i : Nat) (m : String), (materialize qt d.uuids (sources d.settings))[i]? = some m →
      (convert qt d).pages[d.pages.length + i]? =
        some (QWebPage.mk (guessUrlFromString
          (fileSystem qt
            (d.written ++ temporaries qt d.uuids ((sources d.settings).take (i + 1)))) m))) ∧
    (∀ (i : Nat) (s : String), (sources d.settings)[i]? = some s → s ≠ "-" →
      (materialize qt d.uuids (sources d.settings))[i]? = some s) ∧
    (∀ i : Nat, (sources d.settings)[i]? = some "-" →
      ∃ t, (materialize qt d.uuids (sources d.settings))[i]? = some t ∧
        t ∈ temporaries qt d.uuids (sources d.settings) ∧
        (fileSystem qt
          (d.written ++ temporaries qt d.uuids ((sources d.settings).take (i + 1)))).fileExists
          t = true) ∧
    (convert qt d).temporaryFiles =
      d.temporaryFiles ++ temporaries qt d.uuids (sources d.settings) ∧
    (temporaries qt d.uuids (sources d.settings)).length = (sources d.settings).count "-" ∧
    (Function.Injective qt.createUuid →
      (temporaries qt d.uuids (sources d.settings)).Nodup) := by
  obtain ⟨h1, h2, -⟩ := foldl_convertSource qt (sources d.settings)
    { d with networkError := 0, loginTry := 0,
             settings := { d.settings with in_ := sources d.settings } }
  have hs := (foldl_convertSource_fields qt (sources d.settings)
    { d with networkError := 0, loginTry := 0,
             settings := { d.settings with in_ := sources d.settings } }).1
  rw [← convert_eq] at h1 h2 hs
  simp only at h1 h2
  have hlen : (sources d.settings).length =
      d.settings.in_.length + (if d.settings.cover = "" then 0 else 1) := by
    unfold sources
    split_ifs <;> simp
  refine ⟨?_, h1, ?_, materialize_length _ _ _, ?_, ?_, ?_, h2, ?_, ?_⟩
  · rw [hs]
  · rw [h1, List.length_append, List.length_map, dispatched_length, hlen]
  · intro i m hm
    have hi : i < (sources d.settings).length := by
      by_contra hc
      rw [List.getElem?_eq_none (by rw [materialize_length]; omega)] at hm
      exact absurd hm (by simp)
    have hsrc : (sources d.settings)[i]? = some (sources d.settings)[i] :=
      List.getElem?_eq_getElem hi
    rw [materialize_getElem qt _ _ i _ hsrc, Option.some.injEq] at hm
    rw [h1, List.getElem?_append_right (by omega), Nat.add_sub_cancel_left, List.getElem?_map,
      dispatched_getElem qt _ _ _ i _ hsrc, hm]
    rfl
  · intro i s hi hne
    rw [materialize_getElem qt _ _ i s hi, if_neg hne]
  · intro i hi
    obtain ⟨hlt, hle⟩ := count_take_lt _ i hi
    refine ⟨tempFileName qt (d.uuids + ((sources d.settings).take i).count "-"), ?_, ?_, ?_⟩
    · rw [materialize_getElem qt _ _ i "-" hi, if_pos rfl]
    · exact List.mem_map.mpr ⟨_, List.mem_range.mpr (by omega), rfl⟩
    · have hmem : tempFileName qt (d.uuids + ((sources d.settings).take i).count "-") ∈
          temporaries qt d.uuids ((sources d.settings).take (i + 1)) :=
        List.mem_map.mpr ⟨_, List.mem_range.mpr hlt, rfl⟩
      simp [fileSystem, hmem]
  · simp [temporaries]
  · intro hinj
    refine List.Nodup.map ?_ (List.nodup_range _)
    intro a b hab
    have := tempFileName_injective qt hinj hab
    omega

theorem convert_dispatch_order_witness :
    (convert (sampleQt ["cover.html"])
        (fresh ⟨"", "", "cover.html", ["example.com", "-"], 200⟩ 3 4)).pages =
      [{ url := { isValid := true, scheme := "file", host := "", port := -1,
                  path := "/work/cover.html" } },
        { url := { isValid := true, scheme := "http", host := "example.com", port := -1,
                   path := "" } },
        { url := { isValid := true, scheme := "file", host := "", port := -1,
                   path := "/tmp/wktemp.html" } }] :=
  ((convert_dispatch_order (sampleQt ["cover.html"])
    (fresh ⟨"", "", "cover.html", ["example.com", "-"], 200⟩ 3 4)).2.1).trans (by decide)

end PageConverter
